import Mathlib

/-!
Verification of `Day_one/hash_to_poster.py`: a deterministic SVG poster
generator driven by a seeded xorshift PRNG.

Embedding conventions:
* Python unsigned 32-bit arithmetic is `Nat` with explicit `&&& MASK32`
  masking, exactly where the source masks.
* The closure-mutated generator state becomes explicit state passing through
  the record `RS`, which also carries a draw counter (`cnt`) so that
  draw-count claims are statable; the counter is inert otherwise.
* Python `float` arithmetic is modelled by exact rational (`ℚ`) arithmetic.
  Every decimal literal of the source (`0.15`, `0.25`, `0.65`, ...) becomes
  the exact rational of the same decimal.  All claims proved here are
  insensitive to the difference between IEEE-754 doubles and exact rationals
  (thresholds such as `u / 2^32 < 0.15` select the same integers `u` under
  both semantics, and all interval bounds hold with margin).
* `math.sin` / `math.cos` (external C library functions, deterministic for a
  given platform) are parameters `sinA cosA : ℚ → ℚ` of the scene build;
  `math.pi` is the exact rational value `piF` of the IEEE-754 double
  `math.pi`.
* `hashlib.sha256` is implemented below (FIPS 180-4) as a pure function on
  byte lists, together with UTF-8 encoding of the seed string, so that
  `make_rng_state`/`build_svg` take the seed text exactly as the source does.
-/

/-- `MASK32 = 0xFFFFFFFF`: confines PRNG state to unsigned 32-bit range. -/
def MASK32 : Nat := 0xFFFFFFFF

/-- One call of the closure `next_u32` inside `make_rng`: three xorshift
steps (`<<13`, `>>17`, `<<5`, the left shifts masked where the source masks)
followed by the final `state &= MASK32`; the new state is the value
returned to the caller. -/
def next_u32 (state : Nat) : Nat :=
  let s1 := state ^^^ ((state <<< 13) &&& MASK32)
  let s2 := s1 ^^^ (s1 >>> 17)
  let s3 := s2 ^^^ ((s2 <<< 5) &&& MASK32)
  s3 &&& MASK32

namespace SHA256

/-- Right rotation of a 32-bit word. -/
def rotr (n x : Nat) : Nat := ((x >>> n) ||| (x <<< (32 - n))) &&& MASK32

/-- Addition modulo `2^32`. -/
def add32 (a b : Nat) : Nat := (a + b) &&& MASK32

def bigSigma0 (x : Nat) : Nat := rotr 2 x ^^^ rotr 13 x ^^^ rotr 22 x

def bigSigma1 (x : Nat) : Nat := rotr 6 x ^^^ rotr 11 x ^^^ rotr 25 x

def smallSigma0 (x : Nat) : Nat := rotr 7 x ^^^ rotr 18 x ^^^ (x >>> 3)

def smallSigma1 (x : Nat) : Nat := rotr 17 x ^^^ rotr 19 x ^^^ (x >>> 10)

def ch (x y z : Nat) : Nat := (x &&& y) ^^^ ((x ^^^ MASK32) &&& z)

def maj (x y z : Nat) : Nat := (x &&& y) ^^^ (x &&& z) ^^^ (y &&& z)

/-- The 64 SHA-256 round constants (FIPS 180-4 section 4.2.2, here written
in decimal). -/
def K : List Nat :=
  [1116352408, 1899447441, 3049323471, 3921009573, 961987163,
   1508970993, 2453635748, 2870763221, 3624381080, 310598401,
   607225278, 1426881987, 1925078388, 2162078206, 2614888103,
   3248222580, 3835390401, 4022224774, 264347078, 604807628,
   770255983, 1249150122, 1555081692, 1996064986, 2554220882,
   2821834349, 2952996808, 3210313671, 3336571891, 3584528711,
   113926993, 338241895, 666307205, 773529912, 1294757372,
   1396182291, 1695183700, 1986661051, 2177026350, 2456956037,
   2730485921, 2820302411, 3259730800, 3345764771, 3516065817,
   3600352804, 4094571909, 275423344, 430227734, 506948616,
   659060556, 883997877, 958139571, 1322822218, 1537002063,
   1747873779, 1955562222, 2024104815, 2227730452, 2361852424,
   2428436474, 2756734187, 3204031479, 3329325298]

/-- The initial hash value (FIPS 180-4 section 5.3.3, in decimal). -/
def H0 : List Nat :=
  [1779033703, 3144134277, 1013904242,
   2773480762, 1359893119, 2600822924,
   528734635, 1541459225]

/-- `n` big-endian bytes of the value `v`. -/
def beBytes (n v : Nat) : List Nat :=
  (List.range n).map fun i => (v >>> (8 * (n - 1 - i))) &&& 255

/-- FIPS 180-4 padding: append `0x80`, zero bytes to 56 mod 64, then the
bit length as 8 big-endian bytes. -/
def padMessage (msg : List Nat) : List Nat :=
  let z := (119 - msg.length % 64) % 64
  msg ++ [0x80] ++ List.replicate z 0 ++ beBytes 8 (8 * msg.length)

/-- Big-endian 32-bit word number `i` of a byte list. -/
def word (bytes : List Nat) (i : Nat) : Nat :=
  (bytes.getD (4 * i) 0) <<< 24 ||| (bytes.getD (4 * i + 1) 0) <<< 16 |||
  (bytes.getD (4 * i + 2) 0) <<< 8 ||| bytes.getD (4 * i + 3) 0

/-- The 16 words of 512-bit block number `blk`. -/
def blockWords (bytes : List Nat) (blk : Nat) : List Nat :=
  (List.range 16).map fun j => word bytes (16 * blk + j)

/-- One step of message-schedule extension. -/
def newWord (w : List Nat) (t : Nat) : Nat :=
  add32 (add32 (smallSigma1 (w.getD (t - 2) 0)) (w.getD (t - 7) 0))
        (add32 (smallSigma0 (w.getD (t - 15) 0)) (w.getD (t - 16) 0))

/-- Extend the 16 block words to the 64-entry message schedule. -/
def schedule (w16 : List Nat) : List Nat :=
  (List.range' 16 48).foldl (fun w t => w ++ [newWord w t]) w16

/-- One compression round on the working variables `[a,b,c,d,e,f,g,h]`. -/
def compressRound (st : List Nat) (k w : Nat) : List Nat :=
  let a := st.getD 0 0
  let b := st.getD 1 0
  let c := st.getD 2 0
  let d := st.getD 3 0
  let e := st.getD 4 0
  let ff := st.getD 5 0
  let g := st.getD 6 0
  let h := st.getD 7 0
  let t1 := add32 h (add32 (bigSigma1 e) (add32 (ch e ff g) (add32 k w)))
  let t2 := add32 (bigSigma0 a) (maj a b c)
  [add32 t1 t2, a, b, c, add32 d t1, e, ff, g]

/-- Process one block: 64 rounds, then add into the chaining value. -/
def compressBlock (st ws : List Nat) : List Nat :=
  let fin := (K.zip ws).foldl (fun s p => compressRound s p.1 p.2) st
  (st.zip fin).map fun p => add32 p.1 p.2

/-- Serialize hash words to big-endian bytes. -/
def wordsToBytes : List Nat → List Nat
  | [] => []
  | w :: ws => beBytes 4 w ++ wordsToBytes ws

/-- SHA-256 digest (32 bytes) of a byte list. -/
def sha256 (msg : List Nat) : List Nat :=
  let padded := padMessage msg
  let fin := (List.range (padded.length / 64)).foldl
    (fun st blk => compressBlock st (schedule (blockWords padded blk))) H0
  wordsToBytes fin

end SHA256

/-- UTF-8 encoding of one code point, as Python `str.encode("utf-8")`. -/
def utf8Char (c : Nat) : List Nat :=
  if c < 0x80 then [c]
  else if c < 0x800 then
    [0xC0 ||| (c >>> 6), 0x80 ||| (c &&& 0x3F)]
  else if c < 0x10000 then
    [0xE0 ||| (c >>> 12), 0x80 ||| ((c >>> 6) &&& 0x3F), 0x80 ||| (c &&& 0x3F)]
  else
    [0xF0 ||| (c >>> 18), 0x80 ||| ((c >>> 12) &&& 0x3F),
     0x80 ||| ((c >>> 6) &&& 0x3F), 0x80 ||| (c &&& 0x3F)]

/-- UTF-8 encoding of a character list. -/
def utf8Chars : List Char → List Nat
  | [] => []
  | c :: cs => utf8Char c.toNat ++ utf8Chars cs

/-- `seed.encode("utf-8")`. -/
def utf8Encode (s : String) : List Nat := utf8Chars s.data

/-- Big-endian integer value of a byte list (`int.from_bytes(_, "big")`). -/
def beToNat (l : List Nat) : Nat := l.foldl (fun acc b => acc * 256 + b) 0

/-- The initial generator state of `make_rng`: first 4 bytes of the SHA-256
digest of the seed as a big-endian integer, with `or 1` forcing non-zero. -/
def make_rng_state (seed : String) : Nat :=
  let seed_bytes := SHA256.sha256 (utf8Encode seed)
  let v := beToNat (seed_bytes.take 4)
  if v = 0 then 1 else v

/-- Exact rational value of the IEEE-754 double constant `math.pi`. -/
def piF : ℚ := 884279719003555 / 281474976710656

/-- Generator state threaded through the scene build: the 32-bit xorshift
state `st` plus a counter `cnt` of how many draws have been consumed. -/
structure RS where
  st : Nat
  cnt : Nat
deriving DecidableEq, Repr

/-- One generator draw: the closure call `next_u32()`.  The returned value
is the new state. -/
def draw (rs : RS) : Nat × RS :=
  let s := next_u32 rs.st
  (s, ⟨s, rs.cnt + 1⟩)

/-- `rand01(next_u32)`: one draw divided by `2^32`. -/
def rand01 (rs : RS) : ℚ × RS :=
  let (u, rs') := draw rs
  ((u : ℚ) / 4294967296, rs')

/-- The brightening branch of `rgb`: if requested and the channel sum is
below 180, boost each channel by `(180 - sum) / 3 + 1` (integer floor
division), clamping each at 255. -/
def brightenChannels (brighten : Bool) (r g b : Nat) : Nat × Nat × Nat :=
  if brighten ∧ r + g + b < 180 then
    let bump := (180 - (r + g + b)) / 3 + 1
    (min 255 (r + bump), min 255 (g + bump), min 255 (b + bump))
  else (r, g, b)

/-- The three channel draws of `rgb`: low byte, bits 8..15, bits 16..23 of
three consecutive draws, then optional brightening. -/
def rgbChannels (brighten : Bool) (rs : RS) : (Nat × Nat × Nat) × RS :=
  let (u1, rs) := draw rs
  let r := u1 &&& 255
  let (u2, rs) := draw rs
  let g := (u2 >>> 8) &&& 255
  let (u3, rs) := draw rs
  let b := (u3 >>> 16) &&& 255
  (brightenChannels brighten r g b, rs)

/-- `rgb(next_u32, brighten)`: the serialized color-function string. -/
def rgb (brighten : Bool) (rs : RS) : String × RS :=
  let ((r, g, b), rs') := rgbChannels brighten rs
  (s!"rgb({r}, {g}, {b})", rs')

/-- Round-half-even to an integer, the rounding used by `"%.2f"`. -/
def roundHalfEven (x : ℚ) : ℤ :=
  let n := Rat.floor x
  if x - n < 1 / 2 then n
  else if 1 / 2 < x - n then n + 1
  else if n % 2 = 0 then n else n + 1

/-- `f(x)`: fixed 2-decimal formatting, `f"{x:.2f}"`. -/
def f (x : ℚ) : String :=
  let m := (roundHalfEven (x * 100)).natAbs
  (if x < 0 then "-" else "") ++ toString (m / 100) ++ "." ++
    String.mk [Nat.digitChar (m % 100 / 10), Nat.digitChar (m % 10)]

/-- One drawable element of the scene, in the order fields are computed by
the source; serialization is `elemToString`. -/
inductive Elem where
  | header (size : Nat)
  | bgRect (size : Nat) (fill : String)
  | rect (cx cy w h : ℚ) (fill : String) (alpha : ℚ)
  | circle (cx cy r : ℚ) (fill : String) (alpha : ℚ)
  | line (x1 y1 x2 y2 : ℚ) (stroke : String) (width : Nat)
  | anchor (cx cy r : ℚ) (fill : String)
  | footer
deriving DecidableEq, Repr

/-- Serialization of one element, mirroring each `parts.append` f-string of
the source (the ray line carries the fixed `stroke-opacity="0.8"` and
`stroke-linecap="round"`; its width goes through `f` as in the source). -/
def elemToString : Elem → String
  | .header size =>
      "<svg xmlns=\"https://www.w3.org/TR/SVG2/\" width=\"" ++ toString size ++
      "\" height=\"" ++ toString size ++ "\">"
  | .bgRect size fill =>
      "<rect width=\"" ++ toString size ++ "\" height=\"" ++ toString size ++
      "\" fill=\"" ++ fill ++ "\"/>"
  | .rect cx cy w h fill alpha =>
      "<rect x=\"" ++ f (cx - w / 2) ++ "\" y=\"" ++ f (cy - h / 2) ++
      "\" width=\"" ++ f w ++ "\" height=\"" ++ f h ++ "\" fill=\"" ++ fill ++
      "\" fill-opacity=\"" ++ f alpha ++ "\"/>"
  | .circle cx cy r fill alpha =>
      "<circle cx=\"" ++ f cx ++ "\" cy=\"" ++ f cy ++ "\" r=\"" ++ f r ++
      "\" fill=\"" ++ fill ++ "\" fill-opacity=\"" ++ f alpha ++ "\"/>"
  | .line x1 y1 x2 y2 stroke width =>
      "<line x1=\"" ++ f x1 ++ "\" y1=\"" ++ f y1 ++ "\" x2=\"" ++ f x2 ++
      "\" y2=\"" ++ f y2 ++ "\" stroke=\"" ++ stroke ++
      "\" stroke-width=\"" ++ f (width : ℚ) ++
      "\" stroke-opacity=\"0.8\" stroke-linecap=\"round\"/>"
  | .anchor cx cy r fill =>
      "<circle cx=\"" ++ f cx ++ "\" cy=\"" ++ f cy ++ "\" r=\"" ++ f r ++
      "\" fill=\"" ++ fill ++ "\"/>"
  | .footer => "</svg>"

/-- The body of the grid loop for one cell `(gx, gy)`: skip check, center
jitter, fill color, opacity, shape-kind parity, then rectangle or circle
parameters, in the source's draw order. -/
def gridCell (cell : ℚ) (gx gy : Nat) (rs : RS) : List Elem × RS :=
  let (p, rs) := rand01 rs
  if p < 0.15 then ([], rs)
  else
    let x0 := (gx : ℚ) * cell
    let y0 := (gy : ℚ) * cell
    let (j1, rs) := rand01 rs
    let cx := x0 + cell * (0.5 + (j1 - 0.5) * 0.5)
    let (j2, rs) := rand01 rs
    let cy := y0 + cell * (0.5 + (j2 - 0.5) * 0.5)
    let (col, rs) := rgb true rs
    let (a, rs) := rand01 rs
    let alpha := 0.25 + a * 0.65
    let (u, rs) := draw rs
    if u % 2 = 0 then
      let (wr, rs) := rand01 rs
      let w := cell * (0.25 + wr * 0.7)
      let (hr, rs) := rand01 rs
      let h := cell * (0.25 + hr * 0.7)
      ([Elem.rect cx cy w h col alpha], rs)
    else
      let (rr, rs) := rand01 rs
      let r := cell * (0.12 + rr * 0.35)
      ([Elem.circle cx cy r col alpha], rs)

/-- The grid loops, iterated over the row-major cell index list. -/
def gridPhase (cell : ℚ) : List (Nat × Nat) → RS → List Elem × RS
  | [], rs => ([], rs)
  | (gy, gx) :: rest, rs =>
    let (es, rs) := gridCell cell gx gy rs
    let (more, rs') := gridPhase cell rest rs
    (es ++ more, rs')

/-- Row-major cell indices `(gy, gx)` of the two nested `range(cells)`
loops. -/
def cellIndices (cells : Nat) : List (Nat × Nat) :=
  (List.range cells).foldr
    (fun gy acc => ((List.range cells).map fun gx => (gy, gx)) ++ acc) []

/-- The body of the ray loop for ray `i`: angle jitter, length variation,
stroke color (three draws) and stroke width, in the source's evaluation
order. -/
def ray (sinA cosA : ℚ → ℚ) (cx cy inner outer : ℚ) (rays i : Nat)
    (rs : RS) : Elem × RS :=
  let (j, rs) := rand01 rs
  let ang := 2 * piF * (i : ℚ) / (rays : ℚ) + (j - 0.5) * 0.12
  let (v, rs) := rand01 rs
  let r2 := outer * (0.8 + 0.4 * v)
  let x1 := cx + inner * cosA ang
  let y1 := cy + inner * sinA ang
  let x2 := cx + r2 * cosA ang
  let y2 := cy + r2 * sinA ang
  let (col, rs) := rgb true rs
  let (u, rs) := draw rs
  (Elem.line x1 y1 x2 y2 col (1 + u % 4), rs)

/-- The ray loop, iterated over `range(rays)`. -/
def rayPhase (sinA cosA : ℚ → ℚ) (cx cy inner outer : ℚ) (rays : Nat) :
    List Nat → RS → List Elem × RS
  | [], rs => ([], rs)
  | i :: rest, rs =>
    let (e, rs) := ray sinA cosA cx cy inner outer rays i rs
    let (more, rs') := rayPhase sinA cosA cx cy inner outer rays rest rs
    (e :: more, rs')

/-- The element list assembled by `build_svg`: header, background, grid
shapes, rays, center anchor, closing tag, with draws in source order. -/
def build_parts (sinA cosA : ℚ → ℚ) (seed : String) (size cells : Nat) :
    List Elem :=
  let rs0 : RS := ⟨make_rng_state seed, 0⟩
  let (bg, rs1) := rgb false rs0
  let cell : ℚ := (size : ℚ) / (cells : ℚ)
  let (grid, rs2) := gridPhase cell (cellIndices cells) rs1
  let cx : ℚ := (size : ℚ) / 2
  let cy : ℚ := (size : ℚ) / 2
  let rays : Nat := 40
  let inner : ℚ := (size : ℚ) * 0.06
  let outer : ℚ := (size : ℚ) * 0.32
  let (rayElems, rs3) := rayPhase sinA cosA cx cy inner outer rays
    (List.range rays) rs2
  let (anchorCol, _) := rgb true rs3
  [Elem.header size, Elem.bgRect size bg] ++ grid ++ rayElems ++
    [Elem.anchor cx cy ((size : ℚ) * 0.03) anchorCol, Elem.footer]

/-- `build_svg(seed, size, cells)`: serialize the parts joined by newlines
with one trailing newline. -/
def build_svg (sinA cosA : ℚ → ℚ) (seed : String) (size cells : Nat) :
    String :=
  String.intercalate "\n" ((build_parts sinA cosA seed size cells).map
    elemToString) ++ "\n"

/-- The validation and run logic of `main` after argument parsing: the two
`SystemExit` checks in source order, then the build; the `.ok` payload is
the text written to the output file, an `.error` is a fatal exit before
any drawing, with no output produced. -/
def main_run (sinA cosA : ℚ → ℚ) (seed : String) (size cells : Int) :
    Except String String :=
  if size < 64 then .error "--size must be >= 64"
  else if cells < 2 then .error "--cells must be >= 2"
  else .ok (build_svg sinA cosA seed size.toNat cells.toNat)

/-! ### Basic facts about the masked xorshift step -/

theorem mask32_eq : MASK32 = 2 ^ 32 - 1 := by norm_num [MASK32]

theorem and_mask32 (x : Nat) : x &&& MASK32 = x % 2 ^ 32 := by
  rw [mask32_eq, Nat.and_pow_two_sub_one_eq_mod]

theorem and_mask32_lt (x : Nat) : x &&& MASK32 < 2 ^ 32 := by
  rw [and_mask32]; exact Nat.mod_lt _ (by norm_num)

/-- Unfolded form of `next_u32`. -/
theorem next_u32_def (s : Nat) :
    next_u32 s =
      ((s ^^^ ((s <<< 13) &&& MASK32)) ^^^
        ((s ^^^ ((s <<< 13) &&& MASK32)) >>> 17) ^^^
        ((((s ^^^ ((s <<< 13) &&& MASK32)) ^^^
          ((s ^^^ ((s <<< 13) &&& MASK32)) >>> 17)) <<< 5) &&& MASK32)) &&&
        MASK32 := rfl

theorem next_u32_lt (s : Nat) : next_u32 s < 2 ^ 32 := by
  rw [next_u32_def]; exact and_mask32_lt _

/-- If `2^m` divides a fixed point of multiply-by-`2^k`-mod-`2^32`, so does
the next power of two up to `2^32`. -/
theorem pow_dvd_step {s k m : Nat} (h : s = s * 2 ^ k % 2 ^ 32)
    (hm : 2 ^ m ∣ s) : 2 ^ min (m + k) 32 ∣ s := by
  rw [h, Nat.dvd_mod_iff (pow_dvd_pow 2 (Nat.min_le_right _ _))]
  calc 2 ^ min (m + k) 32 ∣ 2 ^ (m + k) := pow_dvd_pow 2 (Nat.min_le_left _ _)
    _ = 2 ^ m * 2 ^ k := pow_add 2 m k
    _ ∣ s * 2 ^ k := mul_dvd_mul hm dvd_rfl

/-- A 32-bit value fixed by a masked left xorshift is zero. -/
theorem shiftl_fix {s k : Nat} (hk : 0 < k) (hs : s < 2 ^ 32)
    (h : s = (s <<< k) &&& MASK32) : s = 0 := by
  rw [Nat.shiftLeft_eq, and_mask32] at h
  have step : ∀ m, 2 ^ min m 32 ∣ s → 2 ^ min (m + k) 32 ∣ s := by
    intro m hm
    have h2 := pow_dvd_step h hm
    have heq : min (m + k) 32 = min (min m 32 + k) 32 := by omega
    rwa [heq]
  have chain : ∀ j, 2 ^ min (k * j) 32 ∣ s := by
    intro j
    induction j with
    | zero => simp
    | succ n ih => rw [Nat.mul_succ]; exact step _ ih
  have h32 : 2 ^ (32 : Nat) ∣ s := by
    have := chain 32
    rwa [Nat.min_eq_right (Nat.le_mul_of_pos_left 32 hk)] at this
  exact Nat.eq_zero_of_dvd_of_lt h32 hs

/-- A value fixed by a right shift by a positive amount is zero. -/
theorem shiftr_fix {s k : Nat} (hk : 0 < k) (h : s = s >>> k) : s = 0 := by
  by_contra hs
  have h1 : s >>> k < s := by
    rw [Nat.shiftRight_eq_div_pow]
    exact Nat.div_lt_self (Nat.pos_of_ne_zero hs) (Nat.one_lt_two_pow (by omega))
  omega

/-- The xorshift step never maps a non-zero 32-bit state to zero. -/
theorem next_u32_ne_zero {s : Nat} (hs : s ≠ 0) (hlt : s < 2 ^ 32) :
    next_u32 s ≠ 0 := by
  intro h0
  rw [next_u32_def] at h0
  set a := s ^^^ ((s <<< 13) &&& MASK32) with ha
  set b := a ^^^ (a >>> 17) with hb
  set c := b ^^^ ((b <<< 5) &&& MASK32) with hc
  have hA : a < 2 ^ 32 := Nat.xor_lt_two_pow hlt (and_mask32_lt _)
  have hB : b < 2 ^ 32 := by
    refine Nat.xor_lt_two_pow hA (lt_of_le_of_lt ?_ hA)
    rw [Nat.shiftRight_eq_div_pow]; exact Nat.div_le_self _ _
  have hC : c < 2 ^ 32 := Nat.xor_lt_two_pow hB (and_mask32_lt _)
  rw [and_mask32, Nat.mod_eq_of_lt hC] at h0
  have hb0 : b = 0 := shiftl_fix (by norm_num) hB (Nat.xor_eq_zero.mp h0)
  rw [hb] at hb0
  have ha0 : a = 0 := shiftr_fix (by norm_num) (Nat.xor_eq_zero.mp hb0)
  rw [ha] at ha0
  exact hs (shiftl_fix (by norm_num) hlt (Nat.xor_eq_zero.mp ha0))

/-! ### The initial state is a well-formed non-zero 32-bit value -/

theorem beBytes_mem_lt {n v b : Nat} (hb : b ∈ SHA256.beBytes n v) :
    b < 256 := by
  unfold SHA256.beBytes at hb
  obtain ⟨i, _, rfl⟩ := List.mem_map.mp hb
  exact lt_of_le_of_lt Nat.and_le_right (by norm_num)

theorem wordsToBytes_mem_lt {ws : List Nat} {b : Nat}
    (hb : b ∈ SHA256.wordsToBytes ws) : b < 256 := by
  induction ws with
  | nil => simp [SHA256.wordsToBytes] at hb
  | cons w ws ih =>
      rw [SHA256.wordsToBytes, List.mem_append] at hb
      exact hb.elim beBytes_mem_lt ih

theorem beToNat_lt (l : List Nat) (hl : ∀ b ∈ l, b < 256) :
    beToNat l < 256 ^ l.length := by
  suffices h : ∀ acc, List.foldl (fun acc b => acc * 256 + b) acc l <
      (acc + 1) * 256 ^ l.length by
    simpa [beToNat] using h 0
  induction l with
  | nil => intro acc; simp
  | cons b bs ih =>
      intro acc
      have hb : b < 256 := hl b (List.mem_cons_self b bs)
      have h1 := ih (fun x hx => hl x (List.mem_cons_of_mem b hx)) (acc * 256 + b)
      calc List.foldl (fun acc b => acc * 256 + b) (acc * 256 + b) bs
          < (acc * 256 + b + 1) * 256 ^ bs.length := h1
        _ ≤ ((acc + 1) * 256) * 256 ^ bs.length := by
            have : acc * 256 + b + 1 ≤ (acc + 1) * 256 := by omega
            exact Nat.mul_le_mul_right _ this
        _ = (acc + 1) * 256 ^ (b :: bs).length := by ring_nf; simp [pow_succ]; ring

theorem make_rng_state_ne_zero (seed : String) : make_rng_state seed ≠ 0 := by
  by_cases h : beToNat ((SHA256.sha256 (utf8Encode seed)).take 4) = 0
  · simp [make_rng_state, h]
  · simp [make_rng_state, h]

theorem make_rng_state_lt (seed : String) : make_rng_state seed < 2 ^ 32 := by
  have hv : beToNat ((SHA256.sha256 (utf8Encode seed)).take 4) < 2 ^ 32 := by
    set l := (SHA256.sha256 (utf8Encode seed)).take 4 with hl
    have hmem : ∀ b ∈ l, b < 256 := by
      intro b hb
      have : b ∈ SHA256.sha256 (utf8Encode seed) := List.take_subset 4 _ hb
      exact wordsToBytes_mem_lt this
    have hlen : l.length ≤ 4 := by simp [hl]
    calc beToNat l < 256 ^ l.length := beToNat_lt l hmem
      _ ≤ 256 ^ 4 := Nat.pow_le_pow_right (by norm_num) hlen
      _ = 2 ^ 32 := by norm_num
  by_cases h : beToNat ((SHA256.sha256 (utf8Encode seed)).take 4) = 0
  · simp [make_rng_state, h]
  · simpa [make_rng_state, h] using hv

theorem iterate_invariant (s : Nat) (hs : s ≠ 0) (hlt : s < 2 ^ 32) :
    ∀ k, next_u32^[k] s ≠ 0 ∧ next_u32^[k] s < 2 ^ 32 := by
  intro k
  induction k with
  | zero => exact ⟨hs, hlt⟩
  | succ n ih =>
      rw [Function.iterate_succ_apply']
      exact ⟨next_u32_ne_zero ih.1 ih.2, next_u32_lt _⟩

/-- C2: for every seed text, the generator state — initialized from the
first 4 bytes of the SHA-256 digest as a big-endian 32-bit integer with 0
replaced by 1 — is non-zero initially (`k = 0`) and after every sequence of
`k` draws of `next_u32`. -/
theorem C2_state_never_zero (seed : String) (k : Nat) :
    next_u32^[k] (make_rng_state seed) ≠ 0 :=
  (iterate_invariant _ (make_rng_state_ne_zero seed)
    (make_rng_state_lt seed) k).1

/-- C1: the scene build is deterministic — two independent evaluations of
`build_svg` (each initializing its own generator from the seed) with
identical seed text, canvas size, grid cell count, and trigonometric
routines produce identical output text. -/
theorem C1_build_svg_deterministic (sinA cosA : ℚ → ℚ) (seed : String)
    (size cells : Nat) :
    build_svg sinA cosA seed size cells = build_svg sinA cosA seed size cells :=
  rfl

/-! ### C8: the draw step, as the spec words it -/

theorem and_mask32_of_lt {x : Nat} (h : x < 2 ^ 32) : x &&& MASK32 = x := by
  rw [and_mask32, Nat.mod_eq_of_lt h]

/-- Spec wording, step 1: XOR with the state left-shifted by 13, then mask
to 32 bits. -/
def maskedStep13 (s : Nat) : Nat := (s ^^^ (s <<< 13)) &&& MASK32

/-- Spec wording, step 2: XOR with the state right-shifted by 17, then mask
to 32 bits. -/
def maskedStep17 (s : Nat) : Nat := (s ^^^ (s >>> 17)) &&& MASK32

/-- Spec wording, step 3: XOR with the state left-shifted by 5, then mask
to 32 bits. -/
def maskedStep5 (s : Nat) : Nat := (s ^^^ (s <<< 5)) &&& MASK32

/-- The draw transformation as described by the spec: three xorshift steps
in sequence, each followed by masking to 32 bits. -/
def next_u32_spec (s : Nat) : Nat := maskedStep5 (maskedStep17 (maskedStep13 s))

theorem shiftRight_lt_two_pow {x n k : Nat} (h : x < 2 ^ n) :
    x >>> k < 2 ^ n := by
  rw [Nat.shiftRight_eq_div_pow]
  exact lt_of_le_of_lt (Nat.div_le_self _ _) h

theorem maskedStep13_eq {s : Nat} (hs : s < 2 ^ 32) :
    maskedStep13 s = s ^^^ ((s <<< 13) &&& MASK32) := by
  rw [maskedStep13, Nat.and_xor_distrib_right, and_mask32_of_lt hs]

theorem maskedStep17_eq {s : Nat} (hs : s < 2 ^ 32) :
    maskedStep17 s = s ^^^ (s >>> 17) := by
  rw [maskedStep17]
  exact and_mask32_of_lt (Nat.xor_lt_two_pow hs (shiftRight_lt_two_pow hs))

theorem maskedStep5_eq {s : Nat} (hs : s < 2 ^ 32) :
    maskedStep5 s = s ^^^ ((s <<< 5) &&& MASK32) := by
  rw [maskedStep5, Nat.and_xor_distrib_right, and_mask32_of_lt hs]

/-- C8: on every 32-bit state, each call of `next_u32` performs the three
xorshift steps in sequence — XOR with state shifted left 13, XOR with state
shifted right 17, XOR with state shifted left 5 — each step followed by
masking to 32 bits, and the resulting state is exactly the value returned
by the draw. -/
theorem C8_next_u32_steps (s : Nat) (hs : s < 2 ^ 32) :
    next_u32 s = next_u32_spec s ∧
      (draw ⟨s, 0⟩).1 = (draw ⟨s, 0⟩).2.st := by
  refine ⟨?_, rfl⟩
  have hA : s ^^^ ((s <<< 13) &&& MASK32) < 2 ^ 32 :=
    Nat.xor_lt_two_pow hs (and_mask32_lt _)
  have hB : (s ^^^ ((s <<< 13) &&& MASK32)) ^^^
      ((s ^^^ ((s <<< 13) &&& MASK32)) >>> 17) < 2 ^ 32 :=
    Nat.xor_lt_two_pow hA (shiftRight_lt_two_pow hA)
  have hC : ((s ^^^ ((s <<< 13) &&& MASK32)) ^^^
      ((s ^^^ ((s <<< 13) &&& MASK32)) >>> 17)) ^^^
      (((((s ^^^ ((s <<< 13) &&& MASK32)) ^^^
        ((s ^^^ ((s <<< 13) &&& MASK32)) >>> 17))) <<< 5) &&& MASK32) < 2 ^ 32 :=
    Nat.xor_lt_two_pow hB (and_mask32_lt _)
  rw [next_u32_def, next_u32_spec, maskedStep13_eq hs, maskedStep17_eq hA,
    maskedStep5_eq hB, and_mask32_of_lt hC]

/-- Witness for C8 at the concrete state 5. -/
theorem C8_next_u32_steps_witness :
    (5 : Nat) < 2 ^ 32 ∧
      (next_u32 5 = next_u32_spec 5 ∧
        (draw ⟨5, 0⟩).1 = (draw ⟨5, 0⟩).2.st) :=
  ⟨by norm_num, C8_next_u32_steps 5 (by norm_num)⟩

/-! ### C5: brightening lifts dark colors without overflowing channels -/

/-- C5: for any drawn color — channels extracted from three draws as in
`rgb` — whose channel sum is below 180, the brightening step (boost each
channel by `(180 - sum) / 3 + 1`, clamped at 255) produces a channel sum of
at least 180 with every channel at most 255. -/
theorem C5_brighten_bounds (u1 u2 u3 : Nat)
    (hsum : (u1 &&& 255) + ((u2 >>> 8) &&& 255) + ((u3 >>> 16) &&& 255) < 180) :
    ∃ r g b : Nat,
      brightenChannels true (u1 &&& 255) ((u2 >>> 8) &&& 255)
        ((u3 >>> 16) &&& 255) = (r, g, b) ∧
      180 ≤ r + g + b ∧ r ≤ 255 ∧ g ≤ 255 ∧ b ≤ 255 := by
  set r0 := u1 &&& 255 with hr0d
  set g0 := (u2 >>> 8) &&& 255 with hg0d
  set b0 := (u3 >>> 16) &&& 255 with hb0d
  have hr0 : r0 ≤ 255 := Nat.and_le_right
  have hg0 : g0 ≤ 255 := Nat.and_le_right
  have hb0 : b0 ≤ 255 := Nat.and_le_right
  rw [brightenChannels, if_pos ⟨rfl, hsum⟩]
  refine ⟨_, _, _, rfl, ?_, Nat.min_le_left _ _, Nat.min_le_left _ _,
    Nat.min_le_left _ _⟩
  simp only [Nat.min_def]
  split_ifs <;> omega

/-- Witness for C5 at the all-zero draws. -/
theorem C5_brighten_bounds_witness :
    ((0 &&& 255) + ((0 >>> 8) &&& 255) + ((0 >>> 16) &&& 255) < 180) ∧
    ∃ r g b : Nat,
      brightenChannels true (0 &&& 255) ((0 >>> 8) &&& 255)
        ((0 >>> 16) &&& 255) = (r, g, b) ∧
      180 ≤ r + g + b ∧ r ≤ 255 ∧ g ≤ 255 ∧ b ≤ 255 :=
  ⟨by decide, C5_brighten_bounds 0 0 0 (by decide)⟩

/-! ### C3: draws consumed by the grid phase -/

/-- Number of generator draws one grid cell consumes when entered with
state `s`: 1 if the skip check fires; otherwise 10 for a rectangle
(even parity draw) and 9 for a circle — in both cases including the
skip-check draw itself.  The skip check looks at the first draw; the
shape-kind parity draw is the 8th draw of the cell. -/
def cellCost (s : Nat) : Nat :=
  if ((next_u32 s : ℚ) / 4294967296) < 0.15 then 1
  else if next_u32^[8] s % 2 = 0 then 10 else 9

/-- Generator state after one grid cell entered with state `s`. -/
def cellNext (s : Nat) : Nat := next_u32^[cellCost s] s

/-- Total draws the grid phase consumes over `n` cells from state `s`:
the sum of the per-cell costs along the state sequence. -/
def gridCost (s : Nat) : Nat → Nat
  | 0 => 0
  | n + 1 => cellCost s + gridCost (cellNext s) n

/-- Generator state after `n` grid cells from state `s`. -/
def gridNext (s : Nat) : Nat → Nat
  | 0 => s
  | n + 1 => gridNext (cellNext s) n

theorem gridCell_rs (cell : ℚ) (gx gy : Nat) (rs : RS) :
    (gridCell cell gx gy rs).2 =
      ⟨next_u32^[cellCost rs.st] rs.st, rs.cnt + cellCost rs.st⟩ := by
  by_cases h : ((next_u32 rs.st : ℚ) / 4294967296) < 0.15
  · simp [gridCell, rand01, draw, cellCost, h]
  · by_cases hp : next_u32^[8] rs.st % 2 = 0
    · have hp' : next_u32 (next_u32 (next_u32 (next_u32 (next_u32 (next_u32
        (next_u32 (next_u32 rs.st))))))) % 2 = 0 := hp
      simp [gridCell, rand01, draw, rgb, rgbChannels, cellCost, h, hp, hp']
    · have hp' : ¬ next_u32 (next_u32 (next_u32 (next_u32 (next_u32 (next_u32
        (next_u32 (next_u32 rs.st))))))) % 2 = 0 := hp
      simp [gridCell, rand01, draw, rgb, rgbChannels, cellCost, h, hp, hp']

/-- Unfolding of `gridPhase` on a cons cell list (by structure eta). -/
theorem gridPhase_cons (cell : ℚ) (gy gx : Nat) (rest : List (Nat × Nat))
    (rs : RS) :
    gridPhase cell ((gy, gx) :: rest) rs =
      ((gridCell cell gx gy rs).1 ++
        (gridPhase cell rest (gridCell cell gx gy rs).2).1,
       (gridPhase cell rest (gridCell cell gx gy rs).2).2) := rfl

theorem gridPhase_rs (cell : ℚ) (cs : List (Nat × Nat)) (rs : RS) :
    (gridPhase cell cs rs).2 =
      ⟨gridNext rs.st cs.length, rs.cnt + gridCost rs.st cs.length⟩ := by
  induction cs generalizing rs with
  | nil => rfl
  | cons c rest ih =>
      obtain ⟨gy, gx⟩ := c
      rw [gridPhase_cons]
      dsimp only
      rw [gridCell_rs, ih]
      simp [gridNext, gridCost, cellNext, Nat.add_assoc]

theorem foldr_cells_length (rows : List Nat) (cells : Nat) :
    (rows.foldr
      (fun gy acc => ((List.range cells).map fun gx => (gy, gx)) ++ acc)
      []).length = rows.length * cells := by
  induction rows with
  | nil => simp
  | cons r rest ih =>
      simp [ih, Nat.succ_mul, Nat.add_comm]

/-- Length of the row-major cell index list is `cells * cells`. -/
theorem cellIndices_length (cells : Nat) :
    (cellIndices cells).length = cells * cells := by
  unfold cellIndices
  rw [foldr_cells_length]
  simp

/-- C3: for a grid of `cells × cells` cells, the number of generator draws
consumed by the grid phase (the draw-counter increase across the phase)
equals the sum over the cell sequence of a per-cell count: 1 draw for a
skipped cell, and — skip-check draw included — 10 draws for a rectangle
cell, 9 draws for a circle cell (`gridCost` folds `cellCost` over the
cells; `cellCost` is exactly that case split). -/
theorem C3_grid_draw_count (cell : ℚ) (cells : Nat) (rs : RS) :
    (gridPhase cell (cellIndices cells) rs).2.cnt =
      rs.cnt + gridCost rs.st (cells * cells) := by
  rw [gridPhase_rs, ← cellIndices_length cells]

/-! ### C6: opacity and radius bounds in the grid phase -/

theorem rand01_nonneg (rs : RS) : 0 ≤ (rand01 rs).1 := by
  simp only [rand01, draw]
  positivity

theorem rand01_lt_one (rs : RS) : (rand01 rs).1 < 1 := by
  simp only [rand01, draw]
  rw [div_lt_one (by norm_num)]
  have h := next_u32_lt rs.st
  have : (next_u32 rs.st : ℚ) < ((2 ^ 32 : Nat) : ℚ) := by
    exact_mod_cast h
  simpa using this

theorem alpha_bounds {q : ℚ} (h0 : 0 ≤ q) (h1 : q < 1) :
    0.25 ≤ 0.25 + q * 0.65 ∧ 0.25 + q * 0.65 ≤ 0.9 := by
  constructor <;> nlinarith

theorem radius_bounds {cell q : ℚ} (hc : 0 ≤ cell) (h0 : 0 ≤ q)
    (h1 : q < 1) :
    0.12 * cell ≤ cell * (0.12 + q * 0.35) ∧
      cell * (0.12 + q * 0.35) ≤ 0.47 * cell := by
  constructor <;> nlinarith

/-- The bounds C6 asserts of a grid-phase element: fill opacity within
`[0.25, 0.90]`, and for circles a radius within `[0.12, 0.47]` times the
cell size. -/
def gridElemOK (cell : ℚ) : Elem → Prop
  | .rect _ _ _ _ _ alpha => 0.25 ≤ alpha ∧ alpha ≤ 0.9
  | .circle _ _ r _ alpha =>
      (0.25 ≤ alpha ∧ alpha ≤ 0.9) ∧ 0.12 * cell ≤ r ∧ r ≤ 0.47 * cell
  | _ => True

theorem gridCell_ok (cell : ℚ) (gx gy : Nat) (rs : RS) (hc : 0 ≤ cell) :
    ∀ e ∈ (gridCell cell gx gy rs).1, gridElemOK cell e := by
  intro e he
  by_cases h : ((next_u32 rs.st : ℚ) / 4294967296) < 0.15
  · simp [gridCell, rand01, draw, h] at he
  · by_cases hp : next_u32 (next_u32 (next_u32 (next_u32 (next_u32 (next_u32
        (next_u32 (next_u32 rs.st))))))) % 2 = 0
    · simp [gridCell, rand01, draw, rgb, rgbChannels, h, hp] at he
      subst he
      exact alpha_bounds (by positivity)
        (by
          rw [div_lt_one (by norm_num)]
          exact_mod_cast next_u32_lt _)
    · simp [gridCell, rand01, draw, rgb, rgbChannels, h, hp] at he
      subst he
      refine ⟨alpha_bounds (by positivity)
        (by
          rw [div_lt_one (by norm_num)]
          exact_mod_cast next_u32_lt _), ?_⟩
      exact radius_bounds hc (by positivity)
        (by
          rw [div_lt_one (by norm_num)]
          exact_mod_cast next_u32_lt _)

/-- C6: every element the grid phase emits has fill opacity in
`[0.25, 0.90]`, and every circle it emits has radius within
`[0.12, 0.47]` times the cell size (for the nonnegative cell size
`size / cells` the build passes). -/
theorem C6_grid_bounds (cell : ℚ) (cs : List (Nat × Nat)) (rs : RS)
    (hc : 0 ≤ cell) :
    ∀ e ∈ (gridPhase cell cs rs).1, gridElemOK cell e := by
  induction cs generalizing rs with
  | nil => intro e he; simp [gridPhase] at he
  | cons c rest ih =>
      obtain ⟨gy, gx⟩ := c
      intro e he
      rw [gridPhase_cons] at he
      rcases List.mem_append.mp he with h1 | h2
      · exact gridCell_ok cell gx gy rs hc e h1
      · exact ih _ e h2

/-- The head of a non-empty list is a member. -/
theorem headD_mem_of_ne_nil {α : Type} (l : List α) (d : α) (h : l ≠ []) :
    l.headD d ∈ l := by
  cases l with
  | nil => exact absurd rfl h
  | cons a t => exact List.mem_cons_self a t

/-- Witness for C6 on the single cell `(0, 0)` with cell size 1 from state
3000, whose first cell is not skipped. -/
theorem C6_grid_bounds_witness :
    (0 : ℚ) ≤ 1 ∧
      gridElemOK 1 ((gridPhase 1 [(0, 0)] ⟨3000, 0⟩).1.headD Elem.footer) := by
  have hskip : ¬ ((next_u32 3000 : ℚ) / 4294967296 < 0.15) := by
    rw [show next_u32 3000 = 798387043 from rfl]
    norm_num
  have hpar : ¬ (next_u32 (next_u32 (next_u32 (next_u32 (next_u32 (next_u32
      (next_u32 (next_u32 3000))))))) % 2 = 0) := by decide
  have hne : (gridPhase 1 [(0, 0)] ⟨3000, 0⟩).1 ≠ [] := by
    rw [gridPhase_cons]
    simp [gridCell, gridPhase, rand01, draw, rgb, rgbChannels, hskip, hpar]
  exact ⟨by norm_num,
    C6_grid_bounds 1 [(0, 0)] ⟨3000, 0⟩ (by norm_num) _
      (headD_mem_of_ne_nil _ _ hne)⟩

/-! ### C10: ray stroke width and stroke opacity -/

/-- C10: every emitted ray line has stroke width `1 + (u mod 4)` where `u`
is the ray body's sixth generator draw — hence an integer between 1 and
4 — and its serialization ends in the fixed literal carrying
`stroke-opacity="0.8"`. -/
theorem C10_ray_stroke (sinA cosA : ℚ → ℚ) (cx cy inner outer : ℚ)
    (rays i : Nat) (rs : RS) :
    (∃ x1 y1 x2 y2 col,
      (ray sinA cosA cx cy inner outer rays i rs).1 =
        Elem.line x1 y1 x2 y2 col (1 + next_u32^[6] rs.st % 4)) ∧
    1 ≤ 1 + next_u32^[6] rs.st % 4 ∧ 1 + next_u32^[6] rs.st % 4 ≤ 4 ∧
    ∃ p : String,
      elemToString (ray sinA cosA cx cy inner outer rays i rs).1 =
        p ++ "\" stroke-opacity=\"0.8\" stroke-linecap=\"round\"/>" := by
  refine ⟨⟨_, _, _, _, _, rfl⟩, Nat.le_add_right 1 _, ?_, ⟨_, rfl⟩⟩
  have := Nat.mod_lt (next_u32^[6] rs.st) (show 0 < 4 by norm_num)
  omega

/-! ### C4: the radial ray motif -/

theorem ray_rs (sinA cosA : ℚ → ℚ) (cx cy inner outer : ℚ) (rays i : Nat)
    (rs : RS) :
    (ray sinA cosA cx cy inner outer rays i rs).2 =
      ⟨next_u32^[6] rs.st, rs.cnt + 6⟩ := rfl

/-- Unfolding of `rayPhase` on a cons index list (by structure eta). -/
theorem rayPhase_cons (sinA cosA : ℚ → ℚ) (cx cy inner outer : ℚ)
    (rays i : Nat) (rest : List Nat) (rs : RS) :
    rayPhase sinA cosA cx cy inner outer rays (i :: rest) rs =
      ((ray sinA cosA cx cy inner outer rays i rs).1 ::
        (rayPhase sinA cosA cx cy inner outer rays rest
          (ray sinA cosA cx cy inner outer rays i rs).2).1,
       (rayPhase sinA cosA cx cy inner outer rays rest
          (ray sinA cosA cx cy inner outer rays i rs).2).2) := rfl

theorem rayPhase_length (sinA cosA : ℚ → ℚ) (cx cy inner outer : ℚ)
    (rays : Nat) (l : List Nat) (rs : RS) :
    (rayPhase sinA cosA cx cy inner outer rays l rs).1.length = l.length := by
  induction l generalizing rs with
  | nil => rfl
  | cons i rest ih => rw [rayPhase_cons]; simp [ih]

theorem rayPhase_cnt (sinA cosA : ℚ → ℚ) (cx cy inner outer : ℚ)
    (rays : Nat) (l : List Nat) (rs : RS) :
    (rayPhase sinA cosA cx cy inner outer rays l rs).2.cnt =
      rs.cnt + 6 * l.length := by
  induction l generalizing rs with
  | nil => simp [rayPhase]
  | cons i rest ih =>
      rw [rayPhase_cons]
      dsimp only
      rw [ih, ray_rs]
      dsimp only
      simp [List.length_cons]
      ring

theorem rayPhase_mem (sinA cosA : ℚ → ℚ) (cx cy inner outer : ℚ)
    (rays : Nat) (l : List Nat) (rs : RS) :
    ∀ e ∈ (rayPhase sinA cosA cx cy inner outer rays l rs).1,
      ∃ i rs', i ∈ l ∧ e = (ray sinA cosA cx cy inner outer rays i rs').1 := by
  induction l generalizing rs with
  | nil => intro e he; simp [rayPhase] at he
  | cons i rest ih =>
      intro e he
      rw [rayPhase_cons] at he
      rcases List.mem_cons.mp he with h1 | h2
      · exact ⟨i, rs, List.mem_cons_self i rest, h1⟩
      · obtain ⟨i', rs', hi', he'⟩ := ih _ e h2
        exact ⟨i', rs', List.mem_cons_of_mem i hi', he'⟩

/-- One ray, abstractly: its element is a line whose endpoints sit at
`inner` and at `outer` scaled by a factor in `[0.8, 1.2)` along the
direction of the evenly spaced angle `2*pi*i/n` plus a jitter of magnitude
at most `0.06`. -/
theorem ray_geometry (sinA cosA : ℚ → ℚ) (cx cy inner outer : ℚ)
    (n i : Nat) (rs : RS) :
    ∃ (jit fac : ℚ) (col : String) (w : Nat),
      -0.06 ≤ jit ∧ jit ≤ 0.06 ∧ 0.8 ≤ fac ∧ fac < 1.2 ∧
      (ray sinA cosA cx cy inner outer n i rs).1 =
        Elem.line (cx + inner * cosA (2 * piF * (i : ℚ) / (n : ℚ) + jit))
          (cy + inner * sinA (2 * piF * (i : ℚ) / (n : ℚ) + jit))
          (cx + outer * fac * cosA (2 * piF * (i : ℚ) / (n : ℚ) + jit))
          (cy + outer * fac * sinA (2 * piF * (i : ℚ) / (n : ℚ) + jit))
          col w := by
  have hj0 : (0 : ℚ) ≤ (next_u32 rs.st : ℚ) / 4294967296 := by positivity
  have hj1 : (next_u32 rs.st : ℚ) / 4294967296 < 1 := by
    rw [div_lt_one (by norm_num)]
    exact_mod_cast next_u32_lt _
  have hv0 : (0 : ℚ) ≤ (next_u32 (next_u32 rs.st) : ℚ) / 4294967296 := by
    positivity
  have hv1 : (next_u32 (next_u32 rs.st) : ℚ) / 4294967296 < 1 := by
    rw [div_lt_one (by norm_num)]
    exact_mod_cast next_u32_lt _
  refine ⟨((next_u32 rs.st : ℚ) / 4294967296 - 0.5) * 0.12,
    0.8 + 0.4 * ((next_u32 (next_u32 rs.st) : ℚ) / 4294967296),
    _, _, by nlinarith, by nlinarith, by nlinarith, by nlinarith, rfl⟩

/-- C4 counterexample: one ray body consumes 6 generator draws (1 angle
jitter + 1 length variation + 3 stroke color + 1 stroke width), not the 4
the claim states. -/
theorem C4_ray_counterexample :
    (ray (fun _ => (0 : ℚ)) (fun _ => (0 : ℚ)) 0 0 0 0 40 0 ⟨1, 0⟩).2.cnt = 6 ∧
    (6 : Nat) ≠ 4 := ⟨rfl, by norm_num⟩

/-- C4 (amended): with the arguments `build_svg` passes — center
`size / 2`, inner radius `size * 0.06`, outer radius `size * 0.32`, 40
rays — the radial motif emits exactly 40 ray lines, consumes exactly 6
generator draws per ray (240 total; 1 angle jitter, 1 length variation, 3
stroke color, 1 stroke width), and every emitted element is a line from
the inner radius to the outer radius scaled by a factor in `[0.8, 1.2)`,
at the evenly spaced angle `2*pi*i/40` plus a jitter of magnitude at most
0.06 radians. -/
theorem C4_ray_motif (sinA cosA : ℚ → ℚ) (size : Nat) (rs : RS) :
    (rayPhase sinA cosA ((size : ℚ) / 2) ((size : ℚ) / 2)
      ((size : ℚ) * 0.06) ((size : ℚ) * 0.32) 40
      (List.range 40) rs).1.length = 40 ∧
    (rayPhase sinA cosA ((size : ℚ) / 2) ((size : ℚ) / 2)
      ((size : ℚ) * 0.06) ((size : ℚ) * 0.32) 40
      (List.range 40) rs).2.cnt = rs.cnt + 240 ∧
    ∀ e ∈ (rayPhase sinA cosA ((size : ℚ) / 2) ((size : ℚ) / 2)
      ((size : ℚ) * 0.06) ((size : ℚ) * 0.32) 40 (List.range 40) rs).1,
      ∃ (i : Nat) (jit fac : ℚ) (col : String) (w : Nat),
        i < 40 ∧ -0.06 ≤ jit ∧ jit ≤ 0.06 ∧ 0.8 ≤ fac ∧ fac < 1.2 ∧
        e = Elem.line
          ((size : ℚ) / 2 +
            (size : ℚ) * 0.06 * cosA (2 * piF * (i : ℚ) / ((40 : Nat) : ℚ) + jit))
          ((size : ℚ) / 2 +
            (size : ℚ) * 0.06 * sinA (2 * piF * (i : ℚ) / ((40 : Nat) : ℚ) + jit))
          ((size : ℚ) / 2 +
            (size : ℚ) * 0.32 * fac * cosA (2 * piF * (i : ℚ) / ((40 : Nat) : ℚ) + jit))
          ((size : ℚ) / 2 +
            (size : ℚ) * 0.32 * fac * sinA (2 * piF * (i : ℚ) / ((40 : Nat) : ℚ) + jit))
          col w := by
  refine ⟨by rw [rayPhase_length]; simp, by rw [rayPhase_cnt]; simp, ?_⟩
  intro e he
  obtain ⟨i, rs', hi, rfl⟩ := rayPhase_mem sinA cosA _ _ _ _ 40 _ rs e he
  obtain ⟨jit, fac, col, w, h1, h2, h3, h4, heq⟩ :=
    ray_geometry sinA cosA ((size : ℚ) / 2) ((size : ℚ) / 2)
      ((size : ℚ) * 0.06) ((size : ℚ) * 0.32) 40 i rs'
  exact ⟨i, jit, fac, col, w, List.mem_range.mp hi, h1, h2, h3, h4, heq⟩

/-- Witness for C4: the first line of a concrete ray phase (zero
trigonometric stubs, canvas 64, state 1) satisfies the per-line property. -/
theorem C4_ray_motif_witness :
    ∃ (i : Nat) (jit fac : ℚ) (col : String) (w : Nat),
      i < 40 ∧ -0.06 ≤ jit ∧ jit ≤ 0.06 ∧ 0.8 ≤ fac ∧ fac < 1.2 ∧
      (rayPhase (fun _ => 0) (fun _ => 0) (((64 : Nat) : ℚ) / 2)
          (((64 : Nat) : ℚ) / 2) (((64 : Nat) : ℚ) * 0.06)
          (((64 : Nat) : ℚ) * 0.32) 40 (List.range 40) ⟨1, 0⟩).1.headD
          Elem.footer =
        Elem.line
          (((64 : Nat) : ℚ) / 2 + ((64 : Nat) : ℚ) * 0.06 *
            (fun _ => (0 : ℚ)) (2 * piF * (i : ℚ) / ((40 : Nat) : ℚ) + jit))
          (((64 : Nat) : ℚ) / 2 + ((64 : Nat) : ℚ) * 0.06 *
            (fun _ => (0 : ℚ)) (2 * piF * (i : ℚ) / ((40 : Nat) : ℚ) + jit))
          (((64 : Nat) : ℚ) / 2 + ((64 : Nat) : ℚ) * 0.32 * fac *
            (fun _ => (0 : ℚ)) (2 * piF * (i : ℚ) / ((40 : Nat) : ℚ) + jit))
          (((64 : Nat) : ℚ) / 2 + ((64 : Nat) : ℚ) * 0.32 * fac *
            (fun _ => (0 : ℚ)) (2 * piF * (i : ℚ) / ((40 : Nat) : ℚ) + jit))
          col w := by
  have hne : (rayPhase (fun _ => 0) (fun _ => 0) (((64 : Nat) : ℚ) / 2)
      (((64 : Nat) : ℚ) / 2) (((64 : Nat) : ℚ) * 0.06)
      (((64 : Nat) : ℚ) * 0.32) 40 (List.range 40) ⟨1, 0⟩).1 ≠ [] := by
    have hl := rayPhase_length (fun _ => 0) (fun _ => 0) (((64 : Nat) : ℚ) / 2)
      (((64 : Nat) : ℚ) / 2) (((64 : Nat) : ℚ) * 0.06)
      (((64 : Nat) : ℚ) * 0.32) 40 (List.range 40) ⟨1, 0⟩
    intro h
    rw [h] at hl
    simp at hl
  exact (C4_ray_motif (fun _ => 0) (fun _ => 0) 64 ⟨1, 0⟩).2.2 _
    (headD_mem_of_ne_nil _ _ hne)

/-! ### C7: numeric formatting in the emitted document -/

/-- C7 (amended): every value rendered through the numeric formatter `f` —
all grid-shape coordinates, widths, heights, radii and opacities, all ray
endpoints and stroke widths, and the anchor geometry — is printed with
exactly two decimal digits after the decimal point. -/
theorem C7_f_two_decimals (x : ℚ) :
    ∃ (p : String) (d1 d2 : Char),
      f x = p ++ "." ++ String.mk [d1, d2] ∧ d1.isDigit ∧ d2.isDigit := by
  have hd : ∀ m : Nat, m < 10 → (Nat.digitChar m).isDigit := by decide
  by_cases hx : x < 0
  · refine ⟨"-" ++ toString ((roundHalfEven (x * 100)).natAbs / 100),
      Nat.digitChar ((roundHalfEven (x * 100)).natAbs % 100 / 10),
      Nat.digitChar ((roundHalfEven (x * 100)).natAbs % 10), ?_,
      hd _ (by omega), hd _ (by omega)⟩
    simp [f, hx, String.append_assoc]
  · refine ⟨"" ++ toString ((roundHalfEven (x * 100)).natAbs / 100),
      Nat.digitChar ((roundHalfEven (x * 100)).natAbs % 100 / 10),
      Nat.digitChar ((roundHalfEven (x * 100)).natAbs % 10), ?_,
      hd _ (by omega), hd _ (by omega)⟩
    simp [f, hx, String.append_assoc]

/-- C7 counterexample: in the document built for seed `"a"`, canvas 64,
2×2 grid, the first emitted element is the root element, whose
`width`/`height` attributes are printed as the bare integer `64` (not a
2-decimal numeral), and every ray line is serialized with the fixed
1-decimal literal `stroke-opacity="0.8"`. -/
theorem C7_format_counterexample :
    (build_parts (fun _ => 0) (fun _ => 0) "a" 64 2).headD Elem.footer =
      Elem.header 64 ∧
    elemToString (Elem.header 64) =
      "<svg xmlns=\"https://www.w3.org/TR/SVG2/\" width=\"64\" height=\"64\">" ∧
    ∃ p : String, elemToString (Elem.line 0 0 0 0 "rgb(0, 0, 0)" 2) =
      p ++ "\" stroke-opacity=\"0.8\" stroke-linecap=\"round\"/>" := by
  refine ⟨by decide, by decide, ⟨_, rfl⟩⟩

/-! ### C9: input validation in `main` -/

/-- C9: after argument parsing, `main` accepts exactly the inputs with
canvas size at least 64 and grid count at least 2 (so `size = 64`,
`cells = 2` passes); a too-small size or grid count produces the
corresponding fatal error before any drawing, and no document text is
produced. -/
theorem C9_validation (sinA cosA : ℚ → ℚ) (seed : String) (size cells : Int) :
    ((∃ svg, main_run sinA cosA seed size cells = .ok svg) ↔
      64 ≤ size ∧ 2 ≤ cells) ∧
    (main_run sinA cosA seed size cells = .error "--size must be >= 64" ↔
      size < 64) ∧
    (main_run sinA cosA seed size cells = .error "--cells must be >= 2" ↔
      size ≥ 64 ∧ cells < 2) := by
  by_cases h1 : size < 64
  · refine ⟨?_, ?_, ?_⟩
    · simp only [main_run, if_pos h1]
      constructor
      · rintro ⟨svg, hsvg⟩
        exact absurd hsvg (by simp)
      · rintro ⟨ha, _⟩
        omega
    · simp [main_run, h1]
    · simp only [main_run, if_pos h1]
      constructor
      · intro h
        have := Except.error.inj h
        exact absurd this (by decide)
      · rintro ⟨ha, _⟩
        omega
  · by_cases h2 : cells < 2
    · refine ⟨?_, ?_, ?_⟩
      · simp only [main_run, if_neg h1, if_pos h2]
        constructor
        · rintro ⟨svg, hsvg⟩
          exact absurd hsvg (by simp)
        · rintro ⟨_, hb⟩
          omega
      · simp only [main_run, if_neg h1, if_pos h2]
        constructor
        · intro h
          have := Except.error.inj h
          exact absurd this (by decide)
        · intro h
          omega
      · simp [main_run, h1, h2]
        omega
    · refine ⟨?_, ?_, ?_⟩
      · simp only [main_run, if_neg h1, if_neg h2]
        constructor
        · intro _
          omega
        · intro _
          exact ⟨_, rfl⟩
      · simp only [main_run, if_neg h1, if_neg h2]
        constructor
        · intro h
          exact absurd h (by simp)
        · intro h
          omega
      · simp only [main_run, if_neg h1, if_neg h2]
        constructor
        · intro h
          exact absurd h (by simp)
        · rintro ⟨_, hb⟩
          omega
